import Mathlib

/-!
# Verification of the rat-widget paging / clipping / glyph core

Shallow embedding of the layout-and-scroll virtualization core of the
rat-widget repository:

* the `SinglePager` / `DualPager` page-navigation state machines
  (`src/pager/single_pager.rs`, `src/pager/dual_pager.rs`),
* the navigation-area arithmetic of the pagers' `into_buffer`,
* the `Clipper` off-screen buffer copy (`src/clipper/clipper.rs`),
* the draw/hide decisions of the buffer-scoped render helpers,
* the grapheme/glyph iteration engine (`src/text/graphemes.rs`,
  `src/textarea/graphemes.rs`) and the word-boundary helpers.

Rust `usize`/`u16` values are modelled as `Nat`.  Where the source uses
`saturating_sub`, the model uses `Nat` subtraction (which is exactly
saturating subtraction); where the source uses a plain `-` that can
underflow (a panic in debug builds), the model uses `checkedSub`, which
returns `none` on underflow.  External collaborators (the Unicode width
table of `unicode_display_width::width`, the Unicode whitespace property
used by `char::is_whitespace`, and the grapheme segmentation of
`unicode_segmentation`) are passed in as parameters: functions take a
width function `w : String → Nat` and a whitespace predicate
`ws : String → Bool`, and text is represented as its list of grapheme
clusters (`List String`).
-/

namespace RatWidget

/-- `ratatui::layout::Rect`: an axis-aligned cell rectangle. -/
structure Rect where
  x : Nat
  y : Nat
  width : Nat
  height : Nat
deriving Repr, DecidableEq

/-- `Rect::default()`: the zero rectangle. -/
def Rect.default : Rect := ⟨0, 0, 0, 0⟩

/-- `Rect::is_empty`: a rect is empty iff its width or height is zero. -/
def Rect.isEmpty (r : Rect) : Bool := r.width == 0 || r.height == 0

/-- Rust `a - b` on unsigned integers: defined only when `b ≤ a`
(underflow panics in debug builds and wraps in release builds). -/
def checkedSub (a b : Nat) : Option Nat :=
  if b ≤ a then some (a - b) else none

/-! ## SinglePager / DualPager page-navigation state machine

`num_pages` is the page count reported by `PagerLayout::num_pages`
(the `PagerLayout` source itself is outside the vendored sources; by
the spec an empty layout still reports one page, so the page count of
a computed layout is at least 1).  The state machine is the `page`
field of `SinglePagerState` / `DualPagerState` together with
`set_page` / `next_page` / `prev_page`.  Each transition returns the
new page and the `bool` result of the Rust function. -/

/-- `SinglePagerState::set_page` (single_pager.rs:489-497). -/
def singleSetPage (n p target : Nat) : Nat × Bool :=
  let p' := if n ≤ target then n - 1 else target
  (p', decide (p ≠ p'))

/-- `SinglePagerState::next_page` (single_pager.rs:499-510). -/
def singleNextPage (n p : Nat) : Nat × Bool :=
  let p' := if n ≤ p + 1 then n - 1 else p + 1
  (p', decide (p ≠ p'))

/-- `SinglePagerState::prev_page` (single_pager.rs:512-520). -/
def singlePrevPage (p : Nat) : Nat × Bool :=
  if 0 < p then (p - 1, true) else (p, false)

/-- `x & !1` on a `usize`: clear the lowest bit, i.e. round down to an
even number. -/
def evenFloor (x : Nat) : Nat := x - x % 2

/-- `DualPagerState::set_page` (dual_pager.rs:561-570). -/
def dualSetPage (n p target : Nat) : Nat × Bool :=
  let p' := if n ≤ target then evenFloor (n - 1) else evenFloor target
  (p', decide (p ≠ p'))

/-- `DualPagerState::next_page` (dual_pager.rs:572-583). -/
def dualNextPage (n p : Nat) : Nat × Bool :=
  let p' := if n ≤ p + 2 then evenFloor (n - 1) else evenFloor (p + 2)
  (p', decide (p ≠ p'))

/-- `DualPagerState::prev_page` (dual_pager.rs:585-593). -/
def dualPrevPage (p : Nat) : Nat × Bool :=
  if 2 ≤ p then (evenFloor (p - 2), true) else (p, false)

/-- One navigation request against a pager state. -/
inductive PagerOp where
  | nextPage : PagerOp
  | prevPage : PagerOp
  | setPage (target : Nat) : PagerOp
deriving Repr, DecidableEq

/-- Run one operation on a `SinglePagerState` page. -/
def singleStep (n : Nat) (p : Nat) : PagerOp → Nat
  | .nextPage => (singleNextPage n p).1
  | .prevPage => (singlePrevPage p).1
  | .setPage t => (singleSetPage n p t).1

/-- Run a sequence of operations on a `SinglePagerState` page. -/
def singleRun (n : Nat) (p : Nat) : List PagerOp → Nat
  | [] => p
  | op :: ops => singleRun n (singleStep n p op) ops

/-- Run one operation on a `DualPagerState` page. -/
def dualStep (n : Nat) (p : Nat) : PagerOp → Nat
  | .nextPage => (dualNextPage n p).1
  | .prevPage => (dualPrevPage p).1
  | .setPage t => (dualSetPage n p t).1

/-- Run a sequence of operations on a `DualPagerState` page. -/
def dualRun (n : Nat) (p : Nat) : List PagerOp → Nat
  | [] => p
  | op :: ops => dualRun n (dualStep n p op) ops

/-! ## `into_buffer` navigation-area arithmetic

The widget area (no block configured) is
`Rect::new(area.x, area.y + 1, area.width, area.height.saturating_sub(1))`.
`SinglePager::into_buffer` computes the indicator offset as
`widget_area.width.saturating_sub(p1)` (single_pager.rs:202) while
`DualPager::into_buffer` computes `widget_area.width - p1`
(dual_pager.rs:237) with a plain, panicking subtraction. -/

/-- Inner widget area of a pager without a block
(single_pager.rs:190-199 / dual_pager.rs:225-234). -/
def pagerWidgetArea (area : Rect) : Rect :=
  ⟨area.x, area.y + 1, area.width, area.height - 1⟩

/-- `SinglePager::into_buffer` nav-area arithmetic (single_pager.rs:200-205):
returns `(prev_area, next_area, scroll_area)`.  All subtractions in the
source are saturating, so the computation is total. -/
def singlePagerNavAreas (area : Rect) : Rect × Rect × Rect :=
  let wa := pagerWidgetArea area
  let p1 := 5
  let p4 := wa.width - p1
  (⟨wa.x, area.y, p1, 1⟩, ⟨wa.x + p4, area.y, p1, 1⟩,
    ⟨area.x + 1, area.y, area.width - 2, 1⟩)

/-- `DualPager::into_buffer` nav-area arithmetic (dual_pager.rs:236-240):
the source computes `let p4 = widget_area.width - p1;` with a plain
`u16` subtraction, so the result is `none` (debug-build panic) whenever
the widget area is narrower than the 5-column indicators. -/
def dualPagerNavAreas (area : Rect) : Option (Rect × Rect × Rect) :=
  let wa := pagerWidgetArea area
  let p1 := 5
  match checkedSub wa.width p1 with
  | none => none
  | some p4 =>
    some (⟨wa.x, area.y, p1, 1⟩, ⟨wa.x + p4, area.y, p1, 1⟩,
      ⟨area.x + 1, area.y, area.width - 2, 1⟩)

/-- `DualPager::into_buffer` column split (dual_pager.rs:242-251):
saturating throughout. -/
def dualPagerColumns (area : Rect) : Rect × Rect × Rect :=
  let wa := pagerWidgetArea area
  let p1 := (wa.width - 1) / 2
  let p2 := wa.width - 1 - p1
  (⟨wa.x, wa.y, p1, wa.height⟩, ⟨wa.x + p1, wa.y, 1, wa.height⟩,
    ⟨wa.x + p1 + 1, wa.y, p2, wa.height⟩)

/-! ## Grapheme/glyph engine

A text slice is represented by its list of grapheme clusters
(`List String`); the segmentation itself is done by the external
`unicode_segmentation` crate.  The display-width table of
`unicode_display_width::width` is passed in as `w : String → Nat`.
A produced glyph is a `(substitute text, column width)` pair. -/

/-- Byte-lexicographic order of Rust `&str` values.  On valid UTF-8,
byte order and code-point order agree, so this is code-point
lexicographic comparison. -/
def strLtChars : List Char → List Char → Bool
  | [], [] => false
  | [], _ :: _ => true
  | _ :: _, [] => false
  | a :: as, b :: bs => if a < b then true else if b < a then false else strLtChars as bs

/-- Rust `a < b` on `&str`. -/
def strLt (a b : String) : Bool := strLtChars a.data b.data

/-- Rust `("\x00".."\x20").contains(&c)`: `"\x00" <= c && c < "\x20"`. -/
def isCtrlRange (g : String) : Bool := !(strLt g "\x00") && strLt g "\x20"

/-- The `CCHAR` table of visible placeholders for ASCII control codes
(graphemes.rs:502-509). -/
def CCHAR : List String :=
  ["␀", "␁", "␂", "␃", "␄", "␅",
   "␆", "␇", "␈", "␉", "␊", "␋",
   "␌", "␍", "␎", "␏", "␐", "␑",
   "␒", "␓", "␔", "␕", "␖", "␗",
   "␘", "␙", "␚", "␛", "␜", "␝",
   "␞", "␟"]

/-- The control-code arm of the glyph match: `c0` is the first byte of
the grapheme (for a control character, the byte equals the code
point), the glyph is `CCHAR[c0]` when `show_ctrl` and U+FFFD
otherwise. -/
def ctrlGlyph (showCtrl : Bool) (g : String) : String :=
  let c0 := (g.data.headD (Char.ofNat 0)).toNat
  if showCtrl then CCHAR.getD c0 "�" else "�"

/-- Glyph substitution of `RopeGlyphIter::next` (text/graphemes.rs:492-522):
line breaks, tab expansion to the next tab stop, control-code
placeholders, and the width table for everything else. -/
def glyphSub (w : String → Nat) (tabs : Nat) (showCtrl : Bool) (col : Nat)
    (g : String) : String × Nat :=
  if g = "\n" || g = "\r\n" then
    ((if showCtrl then "␤" else ""), if showCtrl then 1 else 0)
  else if g = "\t" then
    ((if showCtrl then "␉" else " "), tabs - col % tabs)
  else if isCtrlRange g then
    (ctrlGlyph showCtrl g, 1)
  else
    (g, w g)

/-- Glyph substitution of `textarea::graphemes::GlyphIter::next`
(textarea/graphemes.rs:70-100).  Identical to `glyphSub` except that a
tab always renders as U+2409, ignoring `show_ctrl`. -/
def glyphSubTA (w : String → Nat) (tabs : Nat) (showCtrl : Bool) (col : Nat)
    (g : String) : String × Nat :=
  if g = "\n" || g = "\r\n" then
    ((if showCtrl then "␤" else ""), if showCtrl then 1 else 0)
  else if g = "\t" then
    ("␉", tabs - col % tabs)
  else if isCtrlRange g then
    (ctrlGlyph showCtrl g, 1)
  else
    (g, w g)

/-- Glyph substitution of the flat-string `GlyphIter::next`
(text/graphemes.rs:598-624).  This iterator has no tab arm (and no tab
width at all): a tab falls through to the control-range arm. -/
def glyphSubFlat (w : String → Nat) (showCtrl : Bool) (g : String) : String × Nat :=
  if g = "\n" || g = "\r\n" then
    ((if showCtrl then "␤" else ""), if showCtrl then 1 else 0)
  else if isCtrlRange g then
    (ctrlGlyph showCtrl g, 1)
  else
    (g, w g)

/-- `RopeGlyphIter` as a list transformer (text/graphemes.rs:477-545):
the sequence of glyphs emitted when the iterator starts at column
`col` with start-column offset `offset`.  A glyph wholly left of the
offset is skipped; a glyph whose span crosses the offset is emitted as
the partial glyph `(" ", offset - col)`; from then on glyphs are
emitted unchanged. -/
def ropeGlyphs (w : String → Nat) (tabs : Nat) (showCtrl : Bool) (offset : Nat) :
    Nat → List String → List (String × Nat)
  | _, [] => []
  | col, g :: rest =>
    let gl := glyphSub w tabs showCtrl col g
    let len := gl.2
    let nextCol := col + len
    if col < offset then
      if offset < col + len then
        (" ", offset - col) :: ropeGlyphs w tabs showCtrl offset nextCol rest
      else
        ropeGlyphs w tabs showCtrl offset nextCol rest
    else
      (gl.1, len) :: ropeGlyphs w tabs showCtrl offset nextCol rest

/-- The flat-string `GlyphIter` of text/graphemes.rs:590-653 as a list
transformer: same clipping loop as `ropeGlyphs`, but with
`glyphSubFlat` (no tab expansion). -/
def flatGlyphs (w : String → Nat) (showCtrl : Bool) (offset : Nat) :
    Nat → List String → List (String × Nat)
  | _, [] => []
  | col, g :: rest =>
    let gl := glyphSubFlat w showCtrl g
    let len := gl.2
    let nextCol := col + len
    if col < offset then
      if offset < col + len then
        (" ", offset - col) :: flatGlyphs w showCtrl offset nextCol rest
      else
        flatGlyphs w showCtrl offset nextCol rest
    else
      (gl.1, len) :: flatGlyphs w showCtrl offset nextCol rest

/-- `textarea::graphemes::GlyphIter` as a list transformer
(textarea/graphemes.rs:56-131).  In addition to the left clip it has a
width limit: a glyph crossing `offset + width` is truncated, and once
the column reaches `offset + width` iteration stops (the source
returns `None`, ending the caller's loop). -/
def taGlyphs (w : String → Nat) (tabs : Nat) (showCtrl : Bool) (offset width : Nat) :
    Nat → List String → List (String × Nat)
  | _, [] => []
  | col, g :: rest =>
    let gl := glyphSubTA w tabs showCtrl col g
    let len := gl.2
    let nextCol := col + len
    if col < offset then
      if offset < col + len then
        (" ", offset - col) :: taGlyphs w tabs showCtrl offset width nextCol rest
      else
        taGlyphs w tabs showCtrl offset width nextCol rest
    else if col < offset + width then
      if offset + width < col + len then
        (gl.1, offset + width - col) :: taGlyphs w tabs showCtrl offset width nextCol rest
      else
        (gl.1, len) :: taGlyphs w tabs showCtrl offset width nextCol rest
    else
      []

/-- The column reached after substituting every grapheme of the text
(`self.col` after the iterator is exhausted); the left/right clipping
never changes how `col` advances. -/
def endCol (w : String → Nat) (tabs : Nat) (showCtrl : Bool) :
    Nat → List String → Nat
  | col, [] => col
  | col, g :: rest =>
    endCol w tabs showCtrl (col + (glyphSub w tabs showCtrl col g).2) rest

/-! ## Word-boundary helpers (text/graphemes.rs:26-193)

These operate on grapheme-indexed positions.  `ws` is the whitespace
test `is_whitespace` (graphemes.rs:27-32): the Unicode whitespace
property of the first code point of the grapheme, delegated to
`char::is_whitespace`. -/

/-- `str_line_len` (graphemes.rs:16-19): grapheme count excluding line
breaks. -/
def strLineLen (s : List String) : Nat :=
  (s.filter (fun c => !(c = "\n" || c = "\r\n"))).length

/-- The scan loop of `next_word_start` (graphemes.rs:40-48): advance
`pos` over whitespace graphemes, stop at the first non-whitespace
grapheme or at the end of the text. -/
def nextWordStartGo (ws : String → Bool) : List String → Nat → Nat
  | [], pos => pos
  | c :: rest, pos => if ws c then nextWordStartGo ws rest (pos + 1) else pos

/-- `next_word_start` (graphemes.rs:35-51): the grapheme iterator is
advanced past the first `pos` graphemes, then whitespace is skipped. -/
def nextWordStart (ws : String → Bool) (s : List String) (pos : Nat) : Nat :=
  nextWordStartGo ws (s.drop pos) pos

/-- The backward scan loop of `prev_word_start` (graphemes.rs:92-109):
first skip whitespace (`init` phase), then continue until the next
whitespace; `rpos` counts consumed graphemes from the right end. -/
def prevWordStartGo (ws : String → Bool) : List String → Nat → Bool → Nat
  | [], rpos, _ => rpos
  | c :: rest, rpos, init =>
    if init then
      prevWordStartGo ws rest (rpos + 1) (ws c)
    else
      if ws c then rpos else prevWordStartGo ws rest (rpos + 1) false

/-- `prev_word_start` (graphemes.rs:85-112): scan backwards skipping
whitespace then a word; the result is `len - rpos` where `len` is the
line length.  (The final subtraction is a plain `usize` subtraction in
the source; in the line-break-free setting considered below `rpos ≤ len`
always holds, so `Nat` subtraction is faithful.) -/
def prevWordStart (ws : String → Bool) (s : List String) (pos : Nat) : Nat :=
  let len := strLineLen s
  let rpos := len - pos
  len - prevWordStartGo ws (s.reverse.drop rpos) rpos true

/-! ## Clipper off-screen buffer copy (clipper.rs:382-416)

`ratatui::buffer::Buffer` is a rectangle plus a row-major cell vector;
cells are opaque here (`α`), since the copy clones them verbatim,
styling included. -/

/-- A cell buffer: `ratatui::buffer::Buffer` with opaque cells. -/
structure Buf (α : Type) where
  area : Rect
  content : List α

/-- `Buffer::index_of` (row-major index of a cell inside the buffer's
area). -/
def indexOf (area : Rect) (x y : Nat) : Nat :=
  (y - area.y) * area.width + (x - area.x)

/-- One `clone_from_slice` row copy:
`tgt[t0..t0 + seg.len()] := seg`. -/
def writeRow (tgt : List α) (t0 : Nat) (seg : List α) : List α :=
  tgt.take t0 ++ seg ++ tgt.drop (t0 + seg.length)

/-- The copy loop of `ClipperWidget::render` (clipper.rs:400-411): for
each of the `inner.height` rows, copy `min(inner.width, src.area.width)`
cells from the off-screen buffer at `(buf_offset_x, buf_offset_y + y)`
into the physical buffer at `(inner.x, inner.y + y)`. -/
def clipperCopy (src : Buf α) (tgt : Buf α) (offx offy : Nat) (inner : Rect) :
    List α :=
  let cw := min inner.width src.area.width
  (List.range inner.height).foldl
    (fun acc y =>
      let b0 := indexOf src.area offx (offy + y)
      let t0 := indexOf tgt.area inner.x (inner.y + y)
      writeRow acc t0 ((src.content.drop b0).take cw))
    tgt.content

/-! ## Draw/hide decisions of the buffer-scoped render helpers

Each `render_*` helper first locates the widget's target area and then
decides between drawing and (for stateful variants) the hide path
`state.relocate((0, 0), Rect::default())`.  The decision depends only
on the located area, modelled here as the function from that area to
the decision. -/

/-- `ClipperBuffer::render_widget` (clipper.rs:222-231): draw iff the
located buffer area is non-empty. -/
def clipperRenderWidgetDraws (bufferArea : Rect) : Bool :=
  !bufferArea.isEmpty

/-- `ClipperBuffer::render_stateful` (clipper.rs:237-251): draw (and
relocate) iff the located buffer area is non-empty, otherwise invoke
the hide path. -/
def clipperRenderStatefulDraws (bufferArea : Rect) : Bool :=
  !bufferArea.isEmpty

/-- `ClipperBuffer::render_widget_handle` (clipper.rs:255-265): the
source tests `if buffer_area.is_empty()` — with no negation — so the
widget is drawn exactly when the located area is empty. -/
def clipperRenderWidgetHandleDraws (bufferArea : Rect) : Bool :=
  bufferArea.isEmpty

/-- `ClipperBuffer::render_stateful_handle` (clipper.rs:271-291): draw
iff non-empty, otherwise hide. -/
def clipperRenderStatefulHandleDraws (bufferArea : Rect) : Bool :=
  !bufferArea.isEmpty

/-- `SinglePagerBuffer::locate_area` (single_pager.rs:367-379): the
area is visible iff its page is the current page; then it is shifted
by the widget area's origin. -/
def singleLocateArea (curPage page : Nat) (area wa : Rect) : Option Rect :=
  if curPage = page then
    some ⟨area.x + wa.x, area.y + wa.y, area.width, area.height⟩
  else
    none

/-- `SinglePagerBuffer::render_area` (single_pager.rs:258-269): draw
iff `locate_area` returns a screen area, otherwise invoke the hide
path. -/
def singlePagerRenderAreaDraws (located : Option Rect) : Bool :=
  located.isSome

/-- The canonical hide call `state.relocate((0, 0), Rect::default())`
(single_pager.rs:391-396, dual_pager.rs:443-448, clipper.rs:352-357):
shift by zero and clip to the empty rectangle. -/
def hiddenCall : (Int × Int) × Rect := ((0, 0), Rect.default)

/-- `is_whitespace` (graphemes.rs:27-32): the whitespace property of
the first code point of a grapheme (here Lean's `Char.isWhitespace`,
which agrees with `char::is_whitespace` on the ASCII range used by the
concrete instances below). -/
def is_whitespace (s : String) : Bool :=
  match s.data with
  | [] => false
  | c :: _ => c.isWhitespace

/-!
# Theorems
-/

/-- Rounding down to even always yields an even number. -/
lemma evenFloor_even (x : Nat) : evenFloor x % 2 = 0 := by
  unfold evenFloor
  omega

/-- Every dual-pager transition produces an even page (given an even
start for the `prev_page` no-op branch). -/
lemma dualStep_even (n p : Nat) (op : PagerOp) (hp : p % 2 = 0) :
    dualStep n p op % 2 = 0 := by
  cases op with
  | nextPage =>
    simp only [dualStep, dualNextPage]
    split
    · exact evenFloor_even _
    · exact evenFloor_even _
  | prevPage =>
    simp only [dualStep, dualPrevPage]
    split
    · exact evenFloor_even _
    · exact hp
  | setPage t =>
    simp only [dualStep, dualSetPage]
    split
    · exact evenFloor_even _
    · exact evenFloor_even _

/-- **C3.** For every `DualPagerState` starting at an even page, after
any sequence of `next_page`, `prev_page` and `set_page` calls the
current page index is always even: `set_page` and `next_page` apply
`& !1` to every new value, and `prev_page` either applies `& !1` or
leaves the (even) page unchanged. -/
theorem dualPager_page_parity (n : Nat) (ops : List PagerOp) (p : Nat)
    (hn : 1 ≤ n) (hp : p % 2 = 0) : dualRun n p ops % 2 = 0 := by
  induction ops generalizing p with
  | nil => exact hp
  | cons op ops ih =>
    exact ih (dualStep n p op) (dualStep_even n p op hp)

/-- Witness for C3: three pages, start at page 0, a concrete call
sequence. -/
theorem dualPager_page_parity_witness :
    1 ≤ 3 ∧ 0 % 2 = 0 ∧
      dualRun 3 0 [.nextPage, .setPage 5, .prevPage, .nextPage] % 2 = 0 :=
  ⟨by decide, by decide,
    dualPager_page_parity 3 [.nextPage, .setPage 5, .prevPage, .nextPage] 0
      (by decide) (by decide)⟩

/-- Every single-pager transition keeps the page below the page count. -/
lemma singleStep_lt (n p : Nat) (op : PagerOp) (hn : 1 ≤ n) (hp : p < n) :
    singleStep n p op < n := by
  cases op with
  | nextPage =>
    simp only [singleStep, singleNextPage]
    split <;> omega
  | prevPage =>
    simp only [singleStep, singlePrevPage]
    split <;> omega
  | setPage t =>
    simp only [singleStep, singleSetPage]
    split <;> omega

/-- **C4.** For every `SinglePagerState` whose layout reports at least
one page, after any sequence of `set_page`, `next_page` and
`prev_page` calls starting from an in-range page, `page < page_count`
continues to hold (`set_page` clamps out-of-range targets to the last
page). -/
theorem singlePager_page_in_range (n : Nat) (ops : List PagerOp) (p : Nat)
    (hn : 1 ≤ n) (hp : p < n) : singleRun n p ops < n := by
  induction ops generalizing p with
  | nil => exact hp
  | cons op ops ih =>
    exact ih (singleStep n p op) (singleStep_lt n p op hn hp)

/-- Witness for C4: two pages, start at page 1, a concrete call
sequence including an out-of-range `set_page`. -/
theorem singlePager_page_in_range_witness :
    1 ≤ 2 ∧ 1 < 2 ∧
      singleRun 2 1 [.setPage 7, .nextPage, .prevPage, .nextPage] < 2 :=
  ⟨by decide, by decide,
    singlePager_page_in_range 2 [.setPage 7, .nextPage, .prevPage, .nextPage] 1
      (by decide) (by decide)⟩

/-- **C9.** For both pagers, `next_page` at the last visible page(s)
is a no-op that leaves the page unchanged and returns `false`, and in
general `next_page` returns `true` exactly when the page changed.  For
the dual pager "last visible" means the trailing implicit page
`page + 1` is at or past the end (`page_count ≤ page + 2`), with the
page even and in range. -/
theorem nextPage_noop_and_changed (n p : Nat) (hn : 1 ≤ n) :
    (p = n - 1 → singleNextPage n p = (p, false)) ∧
    ((singleNextPage n p).2 = true ↔ (singleNextPage n p).1 ≠ p) ∧
    (p % 2 = 0 → p < n → n ≤ p + 2 → dualNextPage n p = (p, false)) ∧
    ((dualNextPage n p).2 = true ↔ (dualNextPage n p).1 ≠ p) := by
  refine ⟨?_, ?_, ?_, ?_⟩
  · intro hlast
    simp only [singleNextPage]
    have h1 : n ≤ p + 1 := by omega
    rw [if_pos h1]
    have h2 : n - 1 = p := by omega
    simp [h2]
  · simp only [singleNextPage]
    split <;> simp <;> omega
  · intro hev hlt hle
    have h2 : evenFloor (n - 1) = p := by
      unfold evenFloor
      omega
    simp only [dualNextPage]
    rw [if_pos hle, h2]
    simp
  · simp only [dualNextPage]
    split <;> simp <;> exact ne_comm

/-- Witness for C9: page count 3.  Single pager at the last page 2;
dual pager at the last even page 2. -/
theorem nextPage_noop_and_changed_witness :
    1 ≤ 3 ∧
      (singleNextPage 3 2 = (2, false)) ∧
      (dualNextPage 3 2 = (2, false)) ∧
      ((singleNextPage 3 0).2 = true ↔ (singleNextPage 3 0).1 ≠ 0) := by
  have h := nextPage_noop_and_changed 3 2 (by decide)
  have h0 := nextPage_noop_and_changed 3 0 (by decide)
  exact ⟨by decide, h.1 (by decide), h.2.2.1 (by decide) (by decide) (by decide),
    h0.2.1⟩

/-- **C2.** The paging/clipping arithmetic does **not** everywhere
saturate: `DualPager::into_buffer` computes the next-indicator offset
with a plain `u16` subtraction `widget_area.width - 5`
(dual_pager.rs:237), which underflows for any area narrower than the
5-column navigation indicators — here a 4-column area — while the
parallel line of `SinglePager::into_buffer` (single_pager.rs:202) uses
`saturating_sub` and completes. -/
theorem dualPager_into_buffer_underflow :
    dualPagerNavAreas ⟨0, 0, 4, 3⟩ = none ∧
    singlePagerNavAreas ⟨0, 0, 4, 3⟩ =
      (⟨0, 0, 5, 1⟩, ⟨0, 0, 5, 1⟩, ⟨1, 0, 2, 1⟩) := by
  constructor <;> rfl

/-- **C6.** `ClipperBuffer::render_widget_handle` has its draw
condition inverted: it draws exactly when the located buffer area *is*
empty (`if buffer_area.is_empty()`, clipper.rs:261, with no negation),
so a visible (non-empty) area is not drawn and an invisible (empty)
area is — unlike its sibling `render_stateful`, which draws iff the
area is non-empty. -/
theorem clipper_render_widget_handle_inverted :
    clipperRenderWidgetHandleDraws ⟨0, 0, 5, 1⟩ = false ∧
    Rect.isEmpty ⟨0, 0, 5, 1⟩ = false ∧
    clipperRenderWidgetHandleDraws ⟨0, 0, 0, 0⟩ = true ∧
    clipperRenderStatefulDraws ⟨0, 0, 5, 1⟩ = true ∧
    clipperRenderStatefulDraws ⟨0, 0, 0, 0⟩ = false := by
  refine ⟨rfl, rfl, rfl, rfl, rfl⟩

/-- **C1.** When a glyph's rendered span crosses the start column
offset, the partial glyph's width is **not** the visible remainder:
the source sets `len = self.offset - self.col`
(text/graphemes.rs:530, textarea/graphemes.rs:107), the *hidden* part
of the span.  For a tab spanning columns 0..8 iterated from offset 3
the emitted partial glyph is `(" ", 3)`, while the visible remainder
(end column minus offset) is `8 - 3 = 5`. -/
theorem ropeGlyphIter_partial_clip_hidden_width :
    ropeGlyphs (fun _ => 1) 8 false 3 0 ["\t", "b"] = [(" ", 3), ("b", 1)] ∧
    taGlyphs (fun _ => 1) 8 false 3 100 0 ["\t", "b"] = [(" ", 3), ("b", 1)] ∧
    (3 : Nat) ≠ 8 - 3 := by
  refine ⟨by decide, by decide, by decide⟩

/-- **C5.** Tab expansion to `t - (c mod t)` holds for the rope-backed
iterators, but the flat-string `GlyphIter` of text/graphemes.rs has no
tab arm at all (and no tab width): a tab falls through to the
control-character branch and is emitted with width 1 (as U+FFFD, or
U+2409 with `show_ctrl`).  Iterating the graphemes of `"a\tb"` yields
widths 1, 7, 1 for the rope iterator but 1, 1, 1 for the flat one. -/
theorem flat_glyphIter_tab_not_expanded :
    ropeGlyphs (fun _ => 1) 8 false 0 0 ["a", "\t", "b"] =
      [("a", 1), (" ", 7), ("b", 1)] ∧
    flatGlyphs (fun _ => 1) false 0 0 ["a", "\t", "b"] =
      [("a", 1), ("�", 1), ("b", 1)] ∧
    flatGlyphs (fun _ => 1) true 0 0 ["a", "\t", "b"] =
      [("a", 1), ("␉", 1), ("b", 1)] := by
  refine ⟨by decide, by decide, by decide⟩

/-- Counterexample for **C10**: with `show_ctrl = false` the two
rope-backed glyph iterators emit different glyph text for a tab —
`text::graphemes::RopeGlyphIter` emits a space,
`textarea::graphemes::GlyphIter` always emits U+2409 — so the emitted
`(text, width)` sequences differ even with no clipping at all. -/
theorem glyph_iters_tab_text_differs :
    ropeGlyphs (fun _ => 1) 8 false 0 0 ["\t"] = [(" ", 8)] ∧
    taGlyphs (fun _ => 1) 8 false 0 100 0 ["\t"] = [("␉", 8)] ∧
    (" ", (8 : Nat)) ≠ ("␉", (8 : Nat)) := by
  refine ⟨by decide, by decide, by decide⟩

/-- Counterexample for **C8**: on a string containing a line break the
word helpers are not bounded by the *line length* (which excludes line
breaks): for the graphemes of `"a\n"`, position 1 equals the line
length, yet `next_word_start` runs past the newline and returns 2. -/
theorem nextWordStart_exceeds_line_len :
    strLineLen ["a", "\n"] = 1 ∧
    nextWordStart is_whitespace ["a", "\n"] 1 = 2 ∧
    ¬ nextWordStart is_whitespace ["a", "\n"] 1 ≤ strLineLen ["a", "\n"] := by
  refine ⟨by decide, by decide, by decide⟩

/-- The forward whitespace scan never moves backwards. -/
lemma nextWordStartGo_ge (ws : String → Bool) (l : List String) (pos : Nat) :
    pos ≤ nextWordStartGo ws l pos := by
  induction l generalizing pos with
  | nil => simp [nextWordStartGo]
  | cons c rest ih =>
    simp only [nextWordStartGo]
    split
    · exact le_trans (Nat.le_succ pos) (ih (pos + 1))
    · exact le_refl pos

/-- The forward whitespace scan advances at most once per remaining
grapheme. -/
lemma nextWordStartGo_le (ws : String → Bool) (l : List String) (pos : Nat) :
    nextWordStartGo ws l pos ≤ pos + l.length := by
  induction l generalizing pos with
  | nil => simp [nextWordStartGo]
  | cons c rest ih =>
    simp only [nextWordStartGo, List.length_cons]
    split
    · have := ih (pos + 1)
      omega
    · omega

/-- The backward scan counter never decreases. -/
lemma prevWordStartGo_ge (ws : String → Bool) (l : List String) (rpos : Nat)
    (init : Bool) : rpos ≤ prevWordStartGo ws l rpos init := by
  induction l generalizing rpos init with
  | nil => simp [prevWordStartGo]
  | cons c rest ih =>
    simp only [prevWordStartGo]
    split
    · exact le_trans (Nat.le_succ rpos) (ih (rpos + 1) (ws c))
    · split
      · exact le_refl rpos
      · exact le_trans (Nat.le_succ rpos) (ih (rpos + 1) false)

/-- The backward scan counter grows at most once per remaining
grapheme. -/
lemma prevWordStartGo_le (ws : String → Bool) (l : List String) (rpos : Nat)
    (init : Bool) : prevWordStartGo ws l rpos init ≤ rpos + l.length := by
  induction l generalizing rpos init with
  | nil => simp [prevWordStartGo]
  | cons c rest ih =>
    simp only [prevWordStartGo, List.length_cons]
    split
    · have := ih (rpos + 1) (ws c)
      omega
    · split
      · omega
      · have := ih (rpos + 1) false
        omega

/-- On a line-break-free text the line length is the grapheme count. -/
lemma strLineLen_eq_length (s : List String)
    (h : ∀ g ∈ s, g ≠ "\n" ∧ g ≠ "\r\n") : strLineLen s = s.length := by
  unfold strLineLen
  have : s.filter (fun c => !(c = "\n" || c = "\r\n")) = s := by
    apply List.filter_eq_self.mpr
    intro a ha
    have := h a ha
    simp [this.1, this.2]
  rw [this]

/-- **C8 (amended).** For every whitespace predicate and every
line-break-free grapheme list `s`, at every position `pos ≤ line
length: `next_word_start` does not move backwards and stays within the
line length, and `prev_word_start` does not move forwards (so both
results lie within the boundaries 0 and the line length).  (On strings
*with* line-break graphemes the bound can be exceeded, see the
counterexample.) -/
theorem word_helpers_bounded (ws : String → Bool) (s : List String) (pos : Nat)
    (hnb : ∀ g ∈ s, g ≠ "\n" ∧ g ≠ "\r\n") (hpos : pos ≤ strLineLen s) :
    pos ≤ nextWordStart ws s pos ∧
    nextWordStart ws s pos ≤ strLineLen s ∧
    prevWordStart ws s pos ≤ pos ∧
    prevWordStart ws s pos ≤ strLineLen s := by
  have hlen := strLineLen_eq_length s hnb
  refine ⟨?_, ?_, ?_, ?_⟩
  · exact nextWordStartGo_ge ws (s.drop pos) pos
  · have h1 := nextWordStartGo_le ws (s.drop pos) pos
    have h2 : (s.drop pos).length = s.length - pos := List.length_drop pos s
    unfold nextWordStart
    omega
  · have h1 := prevWordStartGo_ge ws (s.reverse.drop (strLineLen s - pos))
      (strLineLen s - pos) true
    show strLineLen s -
      prevWordStartGo ws (s.reverse.drop (strLineLen s - pos))
        (strLineLen s - pos) true ≤ pos
    omega
  · show strLineLen s -
      prevWordStartGo ws (s.reverse.drop (strLineLen s - pos))
        (strLineLen s - pos) true ≤ strLineLen s
    exact Nat.sub_le _ _

/-- Witness for C8 (amended): graphemes of `" ab"` at position 1. -/
theorem word_helpers_bounded_witness :
    1 ≤ strLineLen [" ", "a", "b"] ∧
    (1 ≤ nextWordStart is_whitespace [" ", "a", "b"] 1 ∧
      nextWordStart is_whitespace [" ", "a", "b"] 1 ≤ strLineLen [" ", "a", "b"] ∧
      prevWordStart is_whitespace [" ", "a", "b"] 1 ≤ 1 ∧
      prevWordStart is_whitespace [" ", "a", "b"] 1 ≤ strLineLen [" ", "a", "b"]) :=
  ⟨by decide,
    word_helpers_bounded is_whitespace [" ", "a", "b"] 1 (by decide) (by decide)⟩

/-- The two glyph substitutions always agree on the width. -/
lemma glyphSubTA_snd (w : String → Nat) (tabs : Nat) (sc : Bool) (col : Nat)
    (g : String) : (glyphSubTA w tabs sc col g).2 = (glyphSub w tabs sc col g).2 := by
  unfold glyphSubTA glyphSub
  split_ifs <;> rfl

/-- With `show_ctrl = true` the two glyph substitutions agree
entirely (the tab placeholder is U+2409 in both). -/
lemma glyphSubTA_eq_of_showCtrl (w : String → Nat) (tabs : Nat) (col : Nat)
    (g : String) : glyphSubTA w tabs true col g = glyphSub w tabs true col g := by
  unfold glyphSubTA glyphSub
  split_ifs <;> simp_all

/-- The column only grows while iterating. -/
lemma endCol_le (w : String → Nat) (tabs : Nat) (sc : Bool) :
    ∀ (gs : List String) (col : Nat), col ≤ endCol w tabs sc col gs := by
  intro gs
  induction gs with
  | nil => intro col; exact le_refl col
  | cons g rest ih =>
    intro col
    exact le_trans (Nat.le_add_right col _) (ih _)

/-- Width sequences of the two rope-backed iterators agree whenever
the width limit never clips on the right. -/
lemma taGlyphs_map_snd (w : String → Nat) (tabs : Nat) (sc : Bool)
    (offset width : Nat) :
    ∀ (gs : List String) (col : Nat), endCol w tabs sc col gs < offset + width →
      (taGlyphs w tabs sc offset width col gs).map Prod.snd =
        (ropeGlyphs w tabs sc offset col gs).map Prod.snd := by
  intro gs
  induction gs with
  | nil => intro col _; rfl
  | cons g rest ih =>
    intro col h
    have hend : endCol w tabs sc col (g :: rest) =
        endCol w tabs sc (col + (glyphSub w tabs sc col g).2) rest := rfl
    have hcl := endCol_le w tabs sc rest (col + (glyphSub w tabs sc col g).2)
    rw [hend] at h
    simp only [taGlyphs, ropeGlyphs, glyphSubTA_snd]
    by_cases h1 : col < offset
    · by_cases h2 : offset < col + (glyphSub w tabs sc col g).2
      · simp [h1, h2, ih _ h]
      · simp [h1, h2, ih _ h]
    · have h3 : col < offset + width := by omega
      have h4 : ¬ offset + width < col + (glyphSub w tabs sc col g).2 := by omega
      simp [h1, h3, h4, ih _ h]

/-- With `show_ctrl = true` the two rope-backed iterators agree on the
whole `(text, width)` sequence whenever the width limit never clips on
the right. -/
lemma taGlyphs_eq_ropeGlyphs_true (w : String → Nat) (tabs : Nat)
    (offset width : Nat) :
    ∀ (gs : List String) (col : Nat), endCol w tabs true col gs < offset + width →
      taGlyphs w tabs true offset width col gs =
        ropeGlyphs w tabs true offset col gs := by
  intro gs
  induction gs with
  | nil => intro col _; rfl
  | cons g rest ih =>
    intro col h
    have hend : endCol w tabs true col (g :: rest) =
        endCol w tabs true (col + (glyphSub w tabs true col g).2) rest := rfl
    have hcl := endCol_le w tabs true rest (col + (glyphSub w tabs true col g).2)
    rw [hend] at h
    simp only [taGlyphs, ropeGlyphs, glyphSubTA_snd, glyphSubTA_eq_of_showCtrl]
    by_cases h1 : col < offset
    · by_cases h2 : offset < col + (glyphSub w tabs true col g).2
      · simp [h1, h2, ih _ h]
      · simp [h1, h2, ih _ h]
    · have h3 : col < offset + width := by omega
      have h4 : ¬ offset + width < col + (glyphSub w tabs true col g).2 := by omega
      simp [h1, h3, h4, ih _ h]

/-- **C10 (amended).** For every rope text, start column offset, tab
width, and show_ctrl setting, and a width limit large enough that the
textarea iterator never clips on the right
(`endCol < offset + width`), the two independently implemented rope
glyph iterators emit the same sequence of glyph *widths*; with
`show_ctrl = true` they emit the same sequence of `(text, width)`
pairs.  (With `show_ctrl = false` the emitted texts differ at tabs —
U+2409 versus a space — see the counterexample.) -/
theorem glyph_iters_equiv (w : String → Nat) (tabs : Nat) (sc : Bool)
    (offset width col : Nat) (gs : List String)
    (h : endCol w tabs sc col gs < offset + width) :
    (taGlyphs w tabs sc offset width col gs).map Prod.snd =
      (ropeGlyphs w tabs sc offset col gs).map Prod.snd ∧
    (sc = true → taGlyphs w tabs sc offset width col gs =
      ropeGlyphs w tabs sc offset col gs) := by
  refine ⟨taGlyphs_map_snd w tabs sc offset width gs col h, ?_⟩
  intro hsc
  subst hsc
  exact taGlyphs_eq_ropeGlyphs_true w tabs offset width gs col h

/-- Witness for C10 (amended): `"a\t"` with tab width 8, offset 0,
width limit 10, `show_ctrl = true`. -/
theorem glyph_iters_equiv_witness :
    endCol (fun _ => 1) 8 true 0 ["a", "\t"] < 0 + 10 ∧
    ((taGlyphs (fun _ => 1) 8 true 0 10 0 ["a", "\t"]).map Prod.snd =
      (ropeGlyphs (fun _ => 1) 8 true 0 0 ["a", "\t"]).map Prod.snd ∧
     (true = true → taGlyphs (fun _ => 1) 8 true 0 10 0 ["a", "\t"] =
      ropeGlyphs (fun _ => 1) 8 true 0 0 ["a", "\t"])) :=
  ⟨by decide,
    glyph_iters_equiv (fun _ => 1) 8 true 0 10 0 ["a", "\t"] (by decide)⟩

/-- A row write preserves the buffer length. -/
lemma writeRow_length {α : Type} (tgt : List α) (t0 : Nat) (seg : List α)
    (h : t0 + seg.length ≤ tgt.length) :
    (writeRow tgt t0 seg).length = tgt.length := by
  simp only [writeRow, List.length_append, List.length_take, List.length_drop]
  omega

/-- Inside the written range the cells come from the segment. -/
lemma writeRow_getElem_inside {α : Type} (tgt : List α) (t0 : Nat) (seg : List α)
    (i : Nat) (h : t0 + seg.length ≤ tgt.length) (hi : i < seg.length) :
    (writeRow tgt t0 seg)[t0 + i]? = seg[i]? := by
  have htake : (tgt.take t0).length = t0 := by
    simp only [List.length_take]
    omega
  unfold writeRow
  rw [List.getElem?_append, if_pos (by simp [htake]; omega)]
  rw [List.getElem?_append_right (by omega), htake]
  congr 1
  omega

/-- Left of the written range the buffer is untouched. -/
lemma writeRow_getElem_lt {α : Type} (tgt : List α) (t0 : Nat) (seg : List α)
    (j : Nat) (h : t0 + seg.length ≤ tgt.length) (hj : j < t0) :
    (writeRow tgt t0 seg)[j]? = tgt[j]? := by
  have htake : (tgt.take t0).length = t0 := by
    simp only [List.length_take]
    omega
  unfold writeRow
  rw [List.getElem?_append, if_pos (by simp [htake]; omega)]
  rw [List.getElem?_append, if_pos (by omega), List.getElem?_take, if_pos hj]

/-- Right of the written range the buffer is untouched. -/
lemma writeRow_getElem_ge {α : Type} (tgt : List α) (t0 : Nat) (seg : List α)
    (j : Nat) (h : t0 + seg.length ≤ tgt.length) (hj : t0 + seg.length ≤ j) :
    (writeRow tgt t0 seg)[j]? = tgt[j]? := by
  have htake : ((tgt.take t0) ++ seg).length = t0 + seg.length := by
    simp only [List.length_append, List.length_take]
    omega
  unfold writeRow
  rw [List.getElem?_append_right (by omega), List.getElem?_drop]
  congr 1
  omega

/-- The row-copy loop of `clipperCopy`, abstracted over the per-row
target offsets and segments. -/
def writeRows {α : Type} (t0f : Nat → Nat) (segf : Nat → List α) (h : Nat)
    (tgt : List α) : List α :=
  (List.range h).foldl (fun acc y => writeRow acc (t0f y) (segf y)) tgt

/-- Unfold one iteration of the row-copy loop. -/
lemma writeRows_succ {α : Type} (t0f : Nat → Nat) (segf : Nat → List α) (k : Nat)
    (tgt : List α) :
    writeRows t0f segf (k + 1) tgt =
      writeRow (writeRows t0f segf k tgt) (t0f k) (segf k) := by
  unfold writeRows
  rw [List.range_succ, List.foldl_append]
  rfl

/-- The row-copy loop preserves the buffer length. -/
lemma writeRows_length {α : Type} (t0f : Nat → Nat) (segf : Nat → List α) (h : Nat)
    (tgt : List α) (hb : ∀ y, y < h → t0f y + (segf y).length ≤ tgt.length) :
    (writeRows t0f segf h tgt).length = tgt.length := by
  induction h with
  | zero => rfl
  | succ k ih =>
    rw [writeRows_succ]
    have hlen := ih (fun y hy => hb y (by omega))
    rw [writeRow_length _ _ _ (by rw [hlen]; exact hb k (by omega)), hlen]

/-- Each copied row lands intact at its target offset, provided rows
write to disjoint, in-bounds ranges in increasing order. -/
lemma writeRows_getElem {α : Type} (t0f : Nat → Nat) (segf : Nat → List α)
    (h : Nat) (tgt : List α)
    (hb : ∀ y, y < h → t0f y + (segf y).length ≤ tgt.length)
    (hsep : ∀ y1 y2, y1 < y2 → y2 < h → t0f y1 + (segf y1).length ≤ t0f y2) :
    ∀ j, j < h → ∀ i, i < (segf j).length →
      (writeRows t0f segf h tgt)[t0f j + i]? = (segf j)[i]? := by
  induction h with
  | zero =>
    intro j hj
    omega
  | succ k ih =>
    intro j hj i hi
    rw [writeRows_succ]
    have hlen : (writeRows t0f segf k tgt).length = tgt.length :=
      writeRows_length _ _ _ _ (fun y hy => hb y (by omega))
    by_cases hjk : j = k
    · subst hjk
      exact writeRow_getElem_inside _ _ _ i (by rw [hlen]; exact hb j (by omega)) hi
    · have hjk2 : j < k := by omega
      have hsepj : t0f j + (segf j).length ≤ t0f k := hsep j k hjk2 (by omega)
      rw [writeRow_getElem_lt _ _ _ _ (by rw [hlen]; exact hb k (by omega)) (by omega)]
      exact ih (fun y hy => hb y (by omega))
        (fun y1 y2 h1 h2 => hsep y1 y2 h1 (by omega)) j hjk2 i hi

/-- `clipperCopy` is the row-copy loop with the concrete offsets of
clipper.rs:404-411. -/
lemma clipperCopy_eq_writeRows {α : Type} (src tgt : Buf α) (offx offy : Nat)
    (inner : Rect) :
    clipperCopy src tgt offx offy inner =
      writeRows (fun y => indexOf tgt.area inner.x (inner.y + y))
        (fun y => (src.content.drop (indexOf src.area offx (offy + y))).take
          (min inner.width src.area.width))
        inner.height tgt.content := rfl

/-- A row segment of width `cw` starting at column `e` of row `d + y`
stays inside a `W × H` row-major grid. -/
lemma row_index_bound (d y H W e cw : Nat) (hy : d + y + 1 ≤ H) (he : e + cw ≤ W) :
    (d + y) * W + e + cw ≤ W * H := by
  have h2 : (d + y) * W + W = (d + y + 1) * W := by ring
  have h3 : (d + y + 1) * W ≤ H * W := Nat.mul_le_mul_right W hy
  have h4 : H * W = W * H := Nat.mul_comm H W
  omega

/-- Row segments of distinct rows occupy disjoint index ranges. -/
lemma row_index_sep (d y1 y2 W e cw : Nat) (hy : y1 < y2) (he : e + cw ≤ W) :
    (d + y1) * W + e + cw ≤ (d + y2) * W + e := by
  have h2 : (d + y1) * W + W = (d + y1 + 1) * W := by ring
  have h3 : (d + y1 + 1) * W ≤ (d + y2) * W := Nat.mul_le_mul_right W (by omega)
  omega

/-- **C7.** The final copy of `ClipperWidget::render` transfers exactly
`inner.height` rows of `min(inner.width, buffer.width)` cells each,
starting at the scroll offset `(offx, offy)` of the off-screen buffer,
verbatim into the physical buffer at the viewport's screen position:
the cell at viewport position `(i, j)` of the physical buffer equals
the off-screen cell at `(offx + i, offy + j)`.  Hypotheses: the
off-screen buffer's area starts at the origin (clipper.rs:197), both
contents have the row-major size of their areas, and the viewport
rectangle lies inside the physical buffer with the copied window inside
the off-screen buffer. -/
theorem clipperCopy_correct {α : Type} (src tgt : Buf α) (offx offy : Nat)
    (inner : Rect)
    (hsx : src.area.x = 0) (hsy : src.area.y = 0)
    (hslen : src.content.length = src.area.width * src.area.height)
    (htlen : tgt.content.length = tgt.area.width * tgt.area.height)
    (htx : tgt.area.x ≤ inner.x) (hty : tgt.area.y ≤ inner.y)
    (hw : inner.x - tgt.area.x + min inner.width src.area.width ≤ tgt.area.width)
    (hh : inner.y - tgt.area.y + inner.height ≤ tgt.area.height)
    (hsw : offx + min inner.width src.area.width ≤ src.area.width)
    (hsh : offy + inner.height ≤ src.area.height) :
    ∀ j, j < inner.height → ∀ i, i < min inner.width src.area.width →
      (clipperCopy src tgt offx offy inner)[indexOf tgt.area (inner.x + i) (inner.y + j)]? =
        src.content[indexOf src.area (offx + i) (offy + j)]? := by
  intro j hj i hi
  have hb0 : ∀ y, indexOf src.area offx (offy + y) =
      (offy + y) * src.area.width + offx := by
    intro y
    simp [indexOf, hsx, hsy]
  have hseglen : ∀ y, y < inner.height →
      ((src.content.drop (indexOf src.area offx (offy + y))).take
        (min inner.width src.area.width)).length = min inner.width src.area.width := by
    intro y hy
    have hbound : (offy + y) * src.area.width + offx + min inner.width src.area.width ≤
        src.content.length := by
      rw [hslen]
      have := row_index_bound offy y src.area.height src.area.width offx
        (min inner.width src.area.width) (by omega) hsw
      omega
    simp only [List.length_take, List.length_drop, hb0]
    omega
  have ht0 : ∀ y, indexOf tgt.area inner.x (inner.y + y) =
      ((inner.y - tgt.area.y) + y) * tgt.area.width + (inner.x - tgt.area.x) := by
    intro y
    unfold indexOf
    congr 1
    congr 1
    omega
  have hb : ∀ y, y < inner.height →
      indexOf tgt.area inner.x (inner.y + y) +
        ((src.content.drop (indexOf src.area offx (offy + y))).take
          (min inner.width src.area.width)).length ≤ tgt.content.length := by
    intro y hy
    rw [hseglen y hy, ht0 y, htlen]
    exact row_index_bound (inner.y - tgt.area.y) y tgt.area.height tgt.area.width
      (inner.x - tgt.area.x) (min inner.width src.area.width) (by omega) hw
  have hsep : ∀ y1 y2, y1 < y2 → y2 < inner.height →
      indexOf tgt.area inner.x (inner.y + y1) +
        ((src.content.drop (indexOf src.area offx (offy + y1))).take
          (min inner.width src.area.width)).length ≤
        indexOf tgt.area inner.x (inner.y + y2) := by
    intro y1 y2 h1 h2
    rw [hseglen y1 (by omega), ht0 y1, ht0 y2]
    exact row_index_sep (inner.y - tgt.area.y) y1 y2 tgt.area.width
      (inner.x - tgt.area.x) (min inner.width src.area.width) h1 hw
  have key := writeRows_getElem
    (fun y => indexOf tgt.area inner.x (inner.y + y))
    (fun y => (src.content.drop (indexOf src.area offx (offy + y))).take
      (min inner.width src.area.width))
    inner.height tgt.content hb hsep j hj i (by rw [hseglen j hj]; exact hi)
  rw [clipperCopy_eq_writeRows]
  have hidx : indexOf tgt.area (inner.x + i) (inner.y + j) =
      indexOf tgt.area inner.x (inner.y + j) + i := by
    unfold indexOf
    have : inner.x + i - tgt.area.x = (inner.x - tgt.area.x) + i := by omega
    rw [this]
    omega
  rw [hidx, key]
  rw [List.getElem?_take, if_pos hi, List.getElem?_drop]
  congr 1
  rw [hb0 j]
  unfold indexOf
  rw [hsx, hsy]
  simp only [Nat.sub_zero]
  omega

/-- Witness for C7: a 10×5 off-screen buffer holding `List.range 50`,
a 4×2 viewport at the origin of a 4×2 physical buffer, scrolled to
offset `(4, 0)`: viewport cell `(2, 1)` (physical index 6) receives
off-screen cell `(6, 1)` (index 16). -/
theorem clipperCopy_correct_witness :
    1 < (2 : Nat) ∧ 2 < min 4 10 ∧
    (clipperCopy (⟨⟨0, 0, 10, 5⟩, List.range 50⟩ : Buf Nat)
      ⟨⟨0, 0, 4, 2⟩, List.replicate 8 0⟩ 4 0
      ⟨0, 0, 4, 2⟩)[indexOf ⟨0, 0, 4, 2⟩ (0 + 2) (0 + 1)]? =
      (List.range 50)[indexOf ⟨0, 0, 10, 5⟩ (4 + 2) (0 + 1)]? := by
  refine ⟨by decide, by decide, ?_⟩
  exact clipperCopy_correct (⟨⟨0, 0, 10, 5⟩, List.range 50⟩ : Buf Nat)
    ⟨⟨0, 0, 4, 2⟩, List.replicate 8 0⟩ 4 0 ⟨0, 0, 4, 2⟩
    rfl rfl (by simp) (by simp) (by simp) (by simp) (by simp) (by simp)
    (by simp) (by simp) 1 (by decide) 2 (by decide)

end RatWidget
